import Mathlib

/-!
Verification of the build-orchestrator script `scripts/prepare/core-bundle.ts`:
configuration normalization (`getOptionsArray`), option layering
(`mergeOptions`), entry/format mapping and manifest synthesis
(`updatePackageJson`), and the driver's control flow (`run`).

JavaScript runtime values are embedded as the inductive `JsVal`; JavaScript
objects are insertion-ordered association lists of fields, mirroring the
engine's property-creation order (assigning to an existing key keeps its
position and overwrites its value; assigning a fresh key appends it).
-/

/-- A JavaScript runtime value, as far as the script inspects one.
`func r` models a (possibly async) function by the value it returns once
invoked with the empty object and awaited — the only way the script ever
calls a configuration function. -/
inductive JsVal where
  | undef
  | null
  | bool (b : Bool)
  | num (n : Int)
  | str (s : String)
  | arr (elems : List JsVal)
  | obj (fields : List (String × JsVal))
  | func (result : JsVal)

/-- Property read `o[k]` on an object's field list: the first (and in a real
JS object, only) binding of the key. -/
def jsLookup : List (String × JsVal) → String → Option JsVal
  | [], _ => none
  | (k, v) :: rest, key => if k = key then some v else jsLookup rest key

/-- Property assignment `o[k] = v`: overwrite in place if the key exists,
append otherwise. -/
def setField : List (String × JsVal) → String → JsVal → List (String × JsVal)
  | [], k, v => [(k, v)]
  | (k', w) :: rest, k, v =>
      if k' = k then (k', v) :: rest else (k', w) :: setField rest k v

/-- Object spread `{...l, ...m}` restricted to field lists: assign every
field of `m`, in order, on top of `l`. -/
def spreadObj (l m : List (String × JsVal)) : List (String × JsVal) :=
  m.foldl (fun acc kv => setField acc kv.1 kv.2) l

/-- JavaScript `[].concat(v)`: an array is spread, any other value is
wrapped as a one-element list. -/
def concatOne : JsVal → List JsVal
  | .arr xs => xs
  | v => [v]

/-- `getOptionsArray` (core-bundle.ts lines 148–159): normalizes the loaded
config export. `Array.isArray` is tested first, then
`typeof config === 'object'` (which is also true of `null`), then
`typeof config === 'function'`; the function's awaited result goes through
`[].concat`. Every remaining shape produces the empty list. -/
def getOptionsArray : JsVal → List JsVal
  | .arr xs => xs
  | .obj fields => [.obj fields]
  | .null => [.null]
  | .func r => concatOne r
  | _ => []

/-- `mergeOptions` (lines 198–212): the effective options are the object
literal `{...defaults, ...config, ...overrides}`, built field by field from
an empty object. -/
def mergeOptions (defaults config overrides : List (String × JsVal)) :
    List (String × JsVal) :=
  spreadObj (spreadObj (spreadObj [] defaults) config) overrides

/- Association-list lemmas about property assignment and spread. -/

theorem jsLookup_setField_self (l : List (String × JsVal)) (k : String) (v : JsVal) :
    jsLookup (setField l k v) k = some v := by
  induction l with
  | nil => simp [setField, jsLookup]
  | cons p rest ih =>
    obtain ⟨k', w⟩ := p
    by_cases h : k' = k
    · simp [setField, h, jsLookup]
    · simp [setField, h, jsLookup, ih]

theorem jsLookup_setField_ne (l : List (String × JsVal)) (k k' : String) (v : JsVal)
    (h : k' ≠ k) : jsLookup (setField l k v) k' = jsLookup l k' := by
  induction l with
  | nil =>
    simp only [setField, jsLookup]
    rw [if_neg (Ne.symm h)]
  | cons p rest ih =>
    obtain ⟨k0, w⟩ := p
    simp only [setField]
    by_cases h0 : k0 = k
    · rw [if_pos h0]
      have hne : k0 ≠ k' := by
        rw [h0]
        exact Ne.symm h
      simp only [jsLookup]
      rw [if_neg hne, if_neg hne]
    · rw [if_neg h0]
      simp only [jsLookup]
      by_cases h1 : k0 = k'
      · rw [if_pos h1, if_pos h1]
      · rw [if_neg h1, if_neg h1]
        exact ih

theorem jsLookup_isSome_iff (l : List (String × JsVal)) (k : String) :
    (jsLookup l k).isSome = true ↔ k ∈ l.map Prod.fst := by
  induction l with
  | nil => simp [jsLookup]
  | cons p rest ih =>
    obtain ⟨k0, v0⟩ := p
    by_cases h : k0 = k
    · simp [jsLookup, h]
    · have h' : ¬k = k0 := fun hh => h hh.symm
      simp [jsLookup, h, h', ih]

theorem jsLookup_eq_none_of_not_mem (l : List (String × JsVal)) (k : String)
    (h : k ∉ l.map Prod.fst) : jsLookup l k = none := by
  cases hh : jsLookup l k with
  | none => rfl
  | some v =>
    exact absurd ((jsLookup_isSome_iff l k).1 (by simp [hh])) h

theorem jsLookup_spreadObj (m : List (String × JsVal))
    (hm : (m.map Prod.fst).Nodup) (l : List (String × JsVal)) (k : String) :
    jsLookup (spreadObj l m) k =
      match jsLookup m k with
      | some v => some v
      | none => jsLookup l k := by
  induction m generalizing l with
  | nil => simp [spreadObj, jsLookup]
  | cons p m ih =>
    obtain ⟨k0, v0⟩ := p
    simp only [List.map_cons, List.nodup_cons] at hm
    have step : spreadObj l ((k0, v0) :: m) = spreadObj (setField l k0 v0) m := rfl
    rw [step, ih hm.2]
    cases h : jsLookup m k with
    | some v =>
      have hk : k ∈ m.map Prod.fst := (jsLookup_isSome_iff m k).1 (by simp [h])
      have hne : k0 ≠ k := fun he => hm.1 (he ▸ hk)
      simp [jsLookup, hne, h]
    | none =>
      by_cases h0 : k0 = k
      · subst h0
        simp [jsLookup, jsLookup_setField_self]
      · simp [jsLookup, h0, h, jsLookup_setField_ne l k0 k v0 (Ne.symm h0)]

/-- C1: `mergeOptions` is the shallow spread `{...defaults, ...config,
...overrides}`: a field present in `overrides` takes the overrides value
(the entire stored value, with no deep merge of nested objects); a field
present in `config` (the descriptor) but not `overrides` takes the
descriptor value; a field absent from both takes the defaults value. -/
theorem mergeOptions_precedence (defaults config overrides : List (String × JsVal))
    (hd : (defaults.map Prod.fst).Nodup) (hc : (config.map Prod.fst).Nodup)
    (ho : (overrides.map Prod.fst).Nodup) (k : String) :
    (k ∈ overrides.map Prod.fst →
      jsLookup (mergeOptions defaults config overrides) k = jsLookup overrides k) ∧
    (k ∉ overrides.map Prod.fst → k ∈ config.map Prod.fst →
      jsLookup (mergeOptions defaults config overrides) k = jsLookup config k) ∧
    (k ∉ overrides.map Prod.fst → k ∉ config.map Prod.fst →
      jsLookup (mergeOptions defaults config overrides) k = jsLookup defaults k) := by
  unfold mergeOptions
  rw [jsLookup_spreadObj overrides ho _ k, jsLookup_spreadObj config hc _ k,
    jsLookup_spreadObj defaults hd _ k]
  refine ⟨fun h1 => ?_, fun h1 h2 => ?_, fun h1 h2 => ?_⟩
  · obtain ⟨v, hv⟩ := Option.isSome_iff_exists.1 ((jsLookup_isSome_iff overrides k).2 h1)
    simp [hv]
  · rw [jsLookup_eq_none_of_not_mem overrides k h1]
    obtain ⟨v, hv⟩ := Option.isSome_iff_exists.1 ((jsLookup_isSome_iff config k).2 h2)
    simp [hv]
  · rw [jsLookup_eq_none_of_not_mem overrides k h1,
      jsLookup_eq_none_of_not_mem config k h2]
    cases h : jsLookup defaults k <;> simp [jsLookup]

/-- Witness for C1 at concrete layers: the `watch` field comes from the
overrides, `entry` from the descriptor, `outDir` from the defaults. -/
theorem mergeOptions_precedence_witness :
    jsLookup (mergeOptions [("outDir", .str "dist"), ("watch", .bool false)]
        [("entry", .str "./src/index.ts"), ("watch", .bool false)]
        [("watch", .bool true), ("clean", .bool false)]) "watch" =
      jsLookup [("watch", .bool true), ("clean", .bool false)] "watch" ∧
    jsLookup (mergeOptions [("outDir", .str "dist"), ("watch", .bool false)]
        [("entry", .str "./src/index.ts"), ("watch", .bool false)]
        [("watch", .bool true), ("clean", .bool false)]) "entry" =
      jsLookup [("entry", .str "./src/index.ts"), ("watch", .bool false)] "entry" ∧
    jsLookup (mergeOptions [("outDir", .str "dist"), ("watch", .bool false)]
        [("entry", .str "./src/index.ts"), ("watch", .bool false)]
        [("watch", .bool true), ("clean", .bool false)]) "outDir" =
      jsLookup [("outDir", .str "dist"), ("watch", .bool false)] "outDir" := by
  refine ⟨?_, ?_, ?_⟩
  · exact (mergeOptions_precedence _ _ _ (by simp) (by simp) (by simp) "watch").1
      (by simp)
  · exact ((mergeOptions_precedence _ _ _ (by simp) (by simp) (by simp) "entry").2.1
      (by simp) (by simp))
  · exact ((mergeOptions_precedence _ _ _ (by simp) (by simp) (by simp) "outDir").2.2
      (by simp) (by simp))

/-- C7 counterexample: a function export's awaited result is *not*
coerced the same way as a direct export — `[].concat` wraps a primitive
result, so a function returning the string `"x"` normalizes to `["x"]`
while the direct string export `"x"` normalizes to `[]`; and a `null`
export is not "any other shape yielding the empty list" either: it lands
in the `typeof === 'object'` branch and normalizes to `[null]`. -/
theorem getOptionsArray_not_uniform :
    getOptionsArray (.func (.str "x")) = [.str "x"] ∧
    getOptionsArray (.str "x") = [] ∧
    getOptionsArray (.func (.str "x")) ≠ getOptionsArray (.str "x") ∧
    getOptionsArray .null = [.null] := by
  refine ⟨rfl, rfl, ?_, rfl⟩
  intro h
  have h' : [JsVal.str "x"] = ([] : List JsVal) := h
  simp at h'

/-- C7 (amended): `getOptionsArray` returns an array export verbatim and
wraps a plain object as a one-element list; `null` also lands in the
`typeof === 'object'` branch and is wrapped as `[null]` rather than
dropped; a function export is invoked with the empty context object, its
result awaited and passed through `[].concat`, which spreads an array
result and wraps any other result — object or primitive — as a
one-element list, so a descriptor-shaped (array or object) result is
coerced exactly as the direct export would be; every other top-level
export shape (string, number, boolean, undefined) yields the empty
list. -/
theorem getOptionsArray_normalization :
    (∀ xs : List JsVal, getOptionsArray (.arr xs) = xs) ∧
    (∀ fields : List (String × JsVal),
      getOptionsArray (.obj fields) = [.obj fields]) ∧
    getOptionsArray .null = [.null] ∧
    (∀ r : JsVal, getOptionsArray (.func r) = concatOne r) ∧
    (∀ xs : List JsVal,
      getOptionsArray (.func (.arr xs)) = getOptionsArray (.arr xs)) ∧
    (∀ fields : List (String × JsVal),
      getOptionsArray (.func (.obj fields)) = getOptionsArray (.obj fields)) ∧
    (∀ s : String, getOptionsArray (.func (.str s)) = [.str s]) ∧
    (∀ s : String, getOptionsArray (.str s) = []) ∧
    (∀ n : Int, getOptionsArray (.num n) = []) ∧
    (∀ b : Bool, getOptionsArray (.bool b) = []) ∧
    getOptionsArray .undef = [] := by
  refine ⟨fun xs => rfl, fun fields => rfl, rfl, fun r => rfl, fun xs => rfl,
    fun fields => rfl, fun s => rfl, fun s => rfl, fun n => rfl, fun b => rfl,
    rfl⟩

/-!
Path model: Node's `path.parse` / `path.join` as the script uses them on
relative paths, on both platform flavors. `win = true` is the Windows
flavor: a backslash also separates, and `join` joins with backslashes;
`win = false` is POSIX. Drive letters, absolute-path roots and trailing
separators — which never occur in the script's inputs — are not modelled.
-/

/-- Separator test: `/` everywhere, additionally `\` on Windows. -/
def isSep (win : Bool) (c : Char) : Bool :=
  c = '/' || (win && c = '\\')

/-- The platform's native separator as a string. -/
def sepStr (win : Bool) : String := if win then "\\" else "/"

/-- Split a character list at its last separator, if any: the left part is
the `dir` portion (separator dropped), the right part the `base`. -/
def splitLastSep (win : Bool) : List Char → Option (List Char × List Char)
  | [] => none
  | c :: rest =>
    match splitLastSep win rest with
    | some (d, b) => some (c :: d, b)
    | none => if isSep win c then some ([], rest) else none

/-- Split a base name at its last dot, if any; the right part excludes the
dot itself. -/
def splitLastDot : List Char → Option (List Char × List Char)
  | [] => none
  | c :: rest =>
    match splitLastDot rest with
    | some (n, e) => some (c :: n, e)
    | none => if c = '.' then some ([], rest) else none

/-- Name and extension of a base name: the extension starts at the last
dot, unless that dot is the leading character (dotfiles have no
extension). -/
def nameExt (base : List Char) : List Char × List Char :=
  match splitLastDot base with
  | none => (base, [])
  | some (before, after) =>
    if before.isEmpty then (base, []) else (before, '.' :: after)

/-- The components of `path.parse` the script reads. -/
structure ParsedPath where
  dir : String
  base : String
  name : String
  ext : String

/-- Node's `path.parse` on a relative path: `dir` is everything before the
last separator (the separator itself dropped; a lone leading separator
yields the root), `base` the remainder, and `name`/`ext` split `base` at
its last non-leading dot. -/
def parsePath (win : Bool) (file : String) : ParsedPath :=
  match splitLastSep win file.data with
  | none =>
    let (n, e) := nameExt file.data
    { dir := "", base := file, name := String.mk n, ext := String.mk e }
  | some (d, b) =>
    let (n, e) := nameExt b
    { dir := if d.isEmpty then sepStr win else String.mk d
      base := String.mk b, name := String.mk n, ext := String.mk e }

/-- JavaScript `String.prototype.replace` with a plain-string pattern
replaces only the first occurrence. -/
def replaceFirstChars (pat rep : List Char) : List Char → List Char
  | [] => if pat.isEmpty then rep else []
  | c :: rest =>
    if pat.isPrefixOf (c :: rest) then rep ++ (c :: rest).drop pat.length
    else c :: replaceFirstChars pat rep rest

/-- `s.replace(pat, rep)` for string arguments: first occurrence only. -/
def jsReplaceFirst (s pat rep : String) : String :=
  String.mk (replaceFirstChars pat.data rep.data s.data)

/-- Split a character list on separators (adjacent separators give empty
segments, later discarded by normalization). -/
def splitSeps (win : Bool) : List Char → List (List Char)
  | [] => [[]]
  | c :: rest =>
    let r := splitSeps win rest
    if isSep win c then [] :: r
    else
      match r with
      | [] => [[c]]
      | seg :: segs => (c :: seg) :: segs

/-- One step of `path.normalize`'s segment resolution: empty and `.`
segments are dropped, `..` pops the previous segment when one is
available. -/
def resolveStep (stack : List String) (seg : String) : List String :=
  if seg = "" || seg = "." then stack
  else if seg = ".." then
    match stack.getLast? with
    | some last => if last = ".." then stack ++ [".."] else stack.dropLast
    | none => [".."]
  else stack ++ [seg]

/-- `path.normalize` on a relative path: resolve the segments and rejoin
them with the platform separator; an empty result is `"."`. -/
def normalizeRel (win : Bool) (s : String) : String :=
  let segs := (splitSeps win s.data).map String.mk
  let resolved := segs.foldl resolveStep []
  if resolved.isEmpty then "." else String.intercalate (sepStr win) resolved

/-- Node's `path.join`: drop empty arguments, join the rest with the
platform separator, and normalize. -/
def joinPath (win : Bool) (a b : String) : String :=
  let parts := [a, b].filter (fun s => s ≠ "")
  if parts.isEmpty then "."
  else normalizeRel win (String.intercalate (sepStr win) parts)

/-- The manifest key computed at core-bundle.ts lines 256–257:
``./${join(dir.replace('./src', './dist'), name)}``, using the host
platform's `parse` and `join`. -/
def outputKey (win : Bool) (file : String) : String :=
  let p := parsePath win file
  "./" ++ joinPath win (jsReplaceFirst p.dir "./src" "./dist") p.name

/-- C5: the key for `"./src/foo/bar.ts"` is `"./dist/foo/bar"` on a POSIX
host, but `"./dist\foo\bar"` on a Windows host, because the script builds
it with the platform-native `path.join` instead of POSIX joins; the two
values differ, so the computed key is not host-independent as claimed. -/
theorem outputKey_platform_dependent :
    outputKey false "./src/foo/bar.ts" = "./dist/foo/bar" ∧
    outputKey true "./src/foo/bar.ts" = "./dist\\foo\\bar" ∧
    outputKey true "./src/foo/bar.ts" ≠ outputKey false "./src/foo/bar.ts" := by
  refine ⟨by decide, by decide, by decide⟩

/-- The static `formatToType` table (core-bundle.ts lines 234–238); reading
an absent key gives `undefined`, modelled as `none`. -/
def formatToType : String → Option String
  | "cjs" => some "require"
  | "esm" => some "module"
  | "iife" => some "module"
  | _ => none

/-- The static `formatToExt` table (lines 239–243). -/
def formatToExt : String → Option String
  | "cjs" => some ".js"
  | "esm" => some ".mjs"
  | "iife" => some ".js"
  | _ => none

/-- Template interpolation of a possibly-undefined string, as in
``${key}${formatToExt[format]}`` (an absent table entry would interpolate
as the text `undefined`; the two tables share their key set, so this never
happens for a format that passed the `formatToType` guard). -/
def templateOpt (o : Option String) : String := o.getD "undefined"

/-- One build entry as consumed by `updatePackageJson`: a source file and a
format tag. -/
structure BuildEntry where
  file : String
  format : String

/-- The assignment `acc[key][type] = value` on the accumulator of grouped
manifest entries: locate the group and assign the condition field inside
it. -/
def updateObjField (l : List (String × JsVal)) (key ty : String) (v : JsVal) :
    List (String × JsVal) :=
  match l with
  | [] => []
  | (k, w) :: rest =>
    if k = key then
      (k, match w with
          | .obj fs => .obj (setField fs ty v)
          | other => other) :: rest
    else (k, w) :: updateObjField rest key ty v

/-- One step of the `entries.reduce` in `updatePackageJson` (lines
249–265): a format missing from `formatToType` contributes nothing;
otherwise the group for the computed output key is created with its
`types` field if absent (the `acc[key] = acc[key] || ...` pattern; group
values are objects, hence always truthy), and the format's condition field
is assigned. -/
def groupStep (win : Bool) (acc : List (String × JsVal)) (e : BuildEntry) :
    List (String × JsVal) :=
  match formatToType e.format with
  | none => acc
  | some ty =>
    let key := outputKey win e.file
    let acc' :=
      if (jsLookup acc key).isSome then acc
      else acc ++ [(key, .obj [("types", .str (key ++ ".d.ts"))])]
    updateObjField acc' key ty (.str (key ++ templateOpt (formatToExt e.format)))

/-- The grouped manifest entries: the `entries.reduce` of
`updatePackageJson`, starting from the empty object. -/
def groupEntries (win : Bool) (entries : List BuildEntry) : List (String × JsVal) :=
  entries.foldl (groupStep win) []

/-- C4: a CommonJS-tagged entry produces a group holding exactly `types`
(key plus `.d.ts`) and `require` (key plus `.js`) and no `module` field;
adding an ESM-tagged entry for the same file extends that same group with
`module` (key plus `.mjs`); the tables map `cjs` to the `require` condition
and `esm` and `iife` both to `module` (so the last entry processed wins
that condition, an IIFE after an ESM leaving `.js`); a format tag outside
the table contributes nothing and creates no group. -/
theorem formatToType_manifest_mapping (win : Bool) (file fmt : String) :
    (groupEntries win [⟨file, "cjs"⟩] =
      [(outputKey win file, .obj
        [("types", .str (outputKey win file ++ ".d.ts")),
         ("require", .str (outputKey win file ++ ".js"))])]) ∧
    (∀ fields, groupEntries win [⟨file, "cjs"⟩] =
        [(outputKey win file, .obj fields)] →
      jsLookup fields "module" = none) ∧
    (groupEntries win [⟨file, "cjs"⟩, ⟨file, "esm"⟩] =
      [(outputKey win file, .obj
        [("types", .str (outputKey win file ++ ".d.ts")),
         ("require", .str (outputKey win file ++ ".js")),
         ("module", .str (outputKey win file ++ ".mjs"))])]) ∧
    (groupEntries win [⟨file, "esm"⟩, ⟨file, "iife"⟩] =
      [(outputKey win file, .obj
        [("types", .str (outputKey win file ++ ".d.ts")),
         ("module", .str (outputKey win file ++ ".js"))])]) ∧
    (formatToType "cjs" = some "require" ∧ formatToType "esm" = some "module" ∧
      formatToType "iife" = some "module") ∧
    (formatToExt "cjs" = some ".js" ∧ formatToExt "esm" = some ".mjs" ∧
      formatToExt "iife" = some ".js") ∧
    (formatToType fmt = none → groupEntries win [⟨file, fmt⟩] = []) := by
  have h1 : groupEntries win [⟨file, "cjs"⟩] =
      [(outputKey win file, .obj
        [("types", .str (outputKey win file ++ ".d.ts")),
         ("require", .str (outputKey win file ++ ".js"))])] := by
    simp [groupEntries, groupStep, formatToType, formatToExt, templateOpt,
      jsLookup, updateObjField, setField]
  refine ⟨h1, fun fields hf => ?_, ?_, ?_, ⟨rfl, rfl, rfl⟩, ⟨rfl, rfl, rfl⟩,
    fun hn => ?_⟩
  · rw [h1] at hf
    simp only [List.cons.injEq, Prod.mk.injEq, JsVal.obj.injEq] at hf
    rw [← hf.1.2]
    simp [jsLookup]
  · simp [groupEntries, groupStep, formatToType, formatToExt, templateOpt,
      jsLookup, updateObjField, setField]
  · simp [groupEntries, groupStep, formatToType, formatToExt, templateOpt,
      jsLookup, updateObjField, setField]
  · simp [groupEntries, groupStep, hn]

/-- Witness for C4: an unrecognized format tag (`txt`) creates no manifest
group. -/
theorem formatToType_manifest_mapping_witness :
    groupEntries false [⟨"./src/a.ts", "txt"⟩] = [] :=
  (formatToType_manifest_mapping false "./src/a.ts" "txt").2.2.2.2.2.2 rfl

/-- The `typeof v === 'object'` test: true for plain objects, arrays and —
a JavaScript classic — `null`. -/
def typeofIsObject : JsVal → Bool
  | .null => true
  | .arr _ => true
  | .obj _ => true
  | _ => false

/-- The `Array.isArray` test. -/
def jsIsArray : JsVal → Bool
  | .arr _ => true
  | _ => false

/-- The `=== undefined` test. -/
def jsIsUndef : JsVal → Bool
  | .undef => true
  | _ => false

/-- The precondition gate of `updatePackageJson` (lines 267–270):
`(typeof pkg.exports === 'object' && !Array.isArray(pkg.exports)) ||
pkg.exports === undefined`. -/
def manifestGate (ex : JsVal) : Bool :=
  (typeofIsObject ex && !jsIsArray ex) || jsIsUndef ex

/-- Reading `pkg.exports`: an absent property reads as `undefined`. -/
def exportsOf (pkg : List (String × JsVal)) : JsVal :=
  (jsLookup pkg "exports").getD (JsVal.undef)

/-- The replacement `exports` value (lines 271–275): the object literal
`{ './package.json': './package.json', ...grouped }`. -/
def exportsValue (win : Bool) (entries : List BuildEntry) : JsVal :=
  .obj (spreadObj [("./package.json", .str "./package.json")]
    (groupEntries win entries))

/-- Ordering of manifest fields by key, for the canonical reordering
before the write. -/
def pkgFieldLE (a b : String × JsVal) : Prop := a.1 ≤ b.1

instance : DecidableRel pkgFieldLE :=
  fun a b => inferInstanceAs (Decidable (a.1 ≤ b.1))

instance : IsTotal (String × JsVal) pkgFieldLE :=
  ⟨fun a b => le_total a.1 b.1⟩

instance : IsTrans (String × JsVal) pkgFieldLE :=
  ⟨fun _ _ _ hab hbc => le_trans hab hbc⟩

/-- Modelled from the spec: the `sortPkg` call is the external
`sort-package-json` dependency, whose code is not part of this repository;
§4.4 specifies only that "keys of the whole manifest are deterministically
reordered by a stable canonical ordering", modelled here as a stable
insertion sort of the manifest's top-level fields by key. -/
def sortPkg (pkg : List (String × JsVal)) : List (String × JsVal) :=
  List.insertionSort pkgFieldLE pkg

/-- Indentation for pretty-printing. -/
def spaces (n : Nat) : String := String.mk (List.replicate n ' ')

/-- JSON escaping of one character (the characters that can occur in
manifest keys and values). -/
def escapeChar (c : Char) : String :=
  if c = '"' then "\\\""
  else if c = '\\' then "\\\\"
  else if c = '\n' then "\\n"
  else if c = '\t' then "\\t"
  else if c = '\r' then "\\r"
  else String.singleton c

/-- JSON escaping of a string body. -/
def escapeString (s : String) : String :=
  String.join (s.data.map escapeChar)

/-- A JSON string literal. -/
def quoteStr (s : String) : String := "\"" ++ escapeString s ++ "\""

/-- `JSON.stringify(v, null, 2)` at indentation level `ind`: `undefined`
and functions have no representation (`none`); inside arrays they print as
`null`, inside objects the whole field is skipped; empty collections print
without line breaks. The first argument is recursion fuel: every recursive
call strictly decreases both the fuel and the value, and the caller below
passes `sizeOf v + 1`, larger than any chain of nested values, so the fuel
never runs out. -/
def stringifyF : Nat → Nat → JsVal → Option String
  | 0, _, _ => none
  | _ + 1, _, .undef => none
  | _ + 1, _, .func _ => none
  | _ + 1, _, .null => some "null"
  | _ + 1, _, .bool b => some (cond b "true" "false")
  | _ + 1, _, .num n => some (toString n)
  | _ + 1, _, .str s => some (quoteStr s)
  | f + 1, ind, .arr xs =>
    let items := xs.map (fun x => (stringifyF f (ind + 2) x).getD "null")
    some (if items.isEmpty then "[]"
      else "[\n" ++
        String.intercalate ",\n" (items.map (fun it => spaces (ind + 2) ++ it)) ++
        "\n" ++ spaces ind ++ "]")
  | f + 1, ind, .obj fs =>
    let items := fs.filterMap (fun kv =>
      (stringifyF f (ind + 2) kv.2).map
        (fun sv => spaces (ind + 2) ++ quoteStr kv.1 ++ ": " ++ sv))
    some (if items.isEmpty then "\x7b\x7d"
      else "\x7b\n" ++ String.intercalate ",\n" items ++ "\n" ++ spaces ind ++
        "\x7d")

/-- Fuel bound for `stringifyF`: an upper bound on the nesting depth of a
value (in fact its total size). -/
def jsFuel : JsVal → Nat
  | .undef => 1
  | .null => 1
  | .bool _ => 1
  | .num _ => 1
  | .str _ => 1
  | .func r => 1 + jsFuel r
  | .arr xs => 1 + (xs.attach.map (fun x => jsFuel x.1)).sum
  | .obj fs => 1 + (fs.attach.map (fun kv => jsFuel kv.1.2)).sum
termination_by v => sizeOf v
decreasing_by
  all_goals simp_wf
  all_goals
    first
      | omega
      | (have h := List.sizeOf_lt_of_mem x.2
         omega)
      | (obtain ⟨⟨k, w⟩, hm⟩ := kv
         have h := List.sizeOf_lt_of_mem hm
         simp at h ⊢
         omega)

/-- `JSON.stringify(v, null, 2)`. -/
def jsonStringify (v : JsVal) : Option String := stringifyF (jsFuel v) 0 v

/-- `updatePackageJson` (lines 245–278) as a pure function: given the
in-memory manifest and the entry list, it returns the manifest value after
the call together with the text written to `package.json` (`none` when the
precondition gate rejects the existing `exports` shape, in which case
nothing at all happens). The written text is
``${JSON.stringify(sortPkg(pkg), null, 2)}\n``. -/
def updatePackageJson (win : Bool) (pkg : List (String × JsVal))
    (entries : List BuildEntry) : List (String × JsVal) × Option String :=
  if manifestGate (exportsOf pkg) then
    let newPkg := setField pkg "exports" (exportsValue win entries)
    (newPkg,
      some (templateOpt (jsonStringify (.obj (sortPkg newPkg))) ++ "\n"))
  else (pkg, none)

/- Further association-list lemmas, used for the manifest claims. -/

theorem setField_append_of_not_mem (l : List (String × JsVal)) (k : String)
    (v : JsVal) (h : k ∉ l.map Prod.fst) : setField l k v = l ++ [(k, v)] := by
  induction l with
  | nil => rfl
  | cons p rest ih =>
    obtain ⟨k0, w⟩ := p
    simp only [List.map_cons, List.mem_cons, not_or] at h
    have hne : k0 ≠ k := fun hh => h.1 hh.symm
    simp [setField, hne, ih h.2]

theorem setField_map_fst_of_mem (l : List (String × JsVal)) (k : String)
    (v : JsVal) (h : k ∈ l.map Prod.fst) :
    (setField l k v).map Prod.fst = l.map Prod.fst := by
  induction l with
  | nil => simp at h
  | cons p rest ih =>
    obtain ⟨k0, w⟩ := p
    by_cases h0 : k0 = k
    · simp [setField, h0]
    · have hr : k ∈ rest.map Prod.fst := by
        rw [List.map_cons] at h
        rcases List.mem_cons.1 h with he | hm
        · exact absurd he.symm h0
        · exact hm
      simp [setField, h0, ih hr]

theorem setField_map_fst_nodup (l : List (String × JsVal)) (k : String)
    (v : JsVal) (h : (l.map Prod.fst).Nodup) :
    ((setField l k v).map Prod.fst).Nodup := by
  by_cases hm : k ∈ l.map Prod.fst
  · rw [setField_map_fst_of_mem l k v hm]
    exact h
  · rw [setField_append_of_not_mem l k v hm]
    simp [List.nodup_append, h, hm]

theorem setField_eq_self (l : List (String × JsVal)) (k : String) (v : JsVal)
    (h : jsLookup l k = some v) : setField l k v = l := by
  induction l with
  | nil => simp [jsLookup] at h
  | cons p rest ih =>
    obtain ⟨k0, w⟩ := p
    by_cases h0 : k0 = k
    · have hw : w = v := by
        rw [jsLookup, if_pos h0] at h
        exact Option.some.inj h
      simp [setField, h0, hw]
    · have hr : jsLookup rest k = some v := by
        rw [jsLookup, if_neg h0] at h
        exact h
      simp [setField, h0, ih hr]

theorem mem_of_jsLookup (l : List (String × JsVal)) (k : String) (v : JsVal)
    (h : jsLookup l k = some v) : (k, v) ∈ l := by
  induction l with
  | nil => simp [jsLookup] at h
  | cons p rest ih =>
    obtain ⟨k0, w⟩ := p
    by_cases h0 : k0 = k
    · subst h0
      rw [jsLookup, if_pos rfl] at h
      simp [Option.some.inj h]
    · rw [jsLookup, if_neg h0] at h
      exact List.mem_cons_of_mem _ (ih h)

theorem jsLookup_of_mem_nodup (l : List (String × JsVal)) (k : String)
    (v : JsVal) (hnd : (l.map Prod.fst).Nodup) (h : (k, v) ∈ l) :
    jsLookup l k = some v := by
  induction l with
  | nil => simp at h
  | cons p rest ih =>
    obtain ⟨k0, w⟩ := p
    simp only [List.map_cons, List.nodup_cons] at hnd
    rcases List.mem_cons.1 h with he | hm
    · cases he
      simp [jsLookup]
    · have hne : k0 ≠ k := by
        intro heq
        subst heq
        exact hnd.1 (List.mem_map.2 ⟨(k0, v), hm, rfl⟩)
      simp [jsLookup, hne, ih hnd.2 hm]

theorem jsLookup_eq_of_perm (l l' : List (String × JsVal)) (hp : l.Perm l')
    (hnd : (l.map Prod.fst).Nodup) (k : String) :
    jsLookup l k = jsLookup l' k := by
  have hnd' : (l'.map Prod.fst).Nodup := ((hp.map Prod.fst).nodup_iff).1 hnd
  cases h : jsLookup l k with
  | none =>
    have h1 : k ∉ l.map Prod.fst := by
      intro hm
      have := (jsLookup_isSome_iff l k).2 hm
      simp [h] at this
    have h2 : k ∉ l'.map Prod.fst := fun hm => h1 ((hp.map Prod.fst).mem_iff.2 hm)
    exact (jsLookup_eq_none_of_not_mem l' k h2).symm
  | some v =>
    exact (jsLookup_of_mem_nodup l' k v hnd'
      (hp.mem_iff.1 (mem_of_jsLookup l k v h))).symm

theorem spreadObj_eq_append (l m : List (String × JsVal))
    (h : ((l ++ m).map Prod.fst).Nodup) : spreadObj l m = l ++ m := by
  induction m generalizing l with
  | nil => simp [spreadObj]
  | cons p m ih =>
    obtain ⟨k, v⟩ := p
    have step : spreadObj l ((k, v) :: m) = spreadObj (setField l k v) m := rfl
    have hk : k ∉ l.map Prod.fst := by
      intro hm
      simp only [List.map_append, List.map_cons, List.nodup_append] at h
      exact h.2.2 hm (List.mem_cons_self k _)
    have hre : l ++ (k, v) :: m = (l ++ [(k, v)]) ++ m := by
      simp
    rw [step, setField_append_of_not_mem l k v hk, ih (l ++ [(k, v)]) (by
      rw [← hre]
      exact h), ← hre]

theorem updateObjField_map_fst (l : List (String × JsVal)) (key ty : String)
    (v : JsVal) : (updateObjField l key ty v).map Prod.fst = l.map Prod.fst := by
  induction l with
  | nil => rfl
  | cons p rest ih =>
    obtain ⟨k, w⟩ := p
    by_cases h : k = key <;> simp [updateObjField, h, ih]

theorem groupStep_keys_nodup (win : Bool) (acc : List (String × JsVal))
    (e : BuildEntry) (h : (acc.map Prod.fst).Nodup) :
    ((groupStep win acc e).map Prod.fst).Nodup := by
  rcases hft : formatToType e.format with _ | ty
  · simpa [groupStep, hft] using h
  · simp only [groupStep, hft]
    rw [updateObjField_map_fst]
    by_cases hk : (jsLookup acc (outputKey win e.file)).isSome = true
    · simp [hk, h]
    · have hnm : outputKey win e.file ∉ acc.map Prod.fst := by
        intro hmem
        exact hk ((jsLookup_isSome_iff _ _).2 hmem)
      simp [hk, List.nodup_append, h, hnm]

theorem foldl_groupStep_keys_nodup (win : Bool) (entries : List BuildEntry) :
    ∀ acc : List (String × JsVal), (acc.map Prod.fst).Nodup →
      ((entries.foldl (groupStep win) acc).map Prod.fst).Nodup := by
  induction entries with
  | nil => exact fun acc h => h
  | cons e es ih =>
    exact fun acc h => ih (groupStep win acc e) (groupStep_keys_nodup win acc e h)

theorem groupEntries_keys_nodup (win : Bool) (entries : List BuildEntry) :
    ((groupEntries win entries).map Prod.fst).Nodup :=
  foldl_groupStep_keys_nodup win entries [] (by simp)

theorem sortPkg_idem (l : List (String × JsVal)) :
    sortPkg (sortPkg l) = sortPkg l :=
  List.Sorted.insertionSort_eq (List.sorted_insertionSort pkgFieldLE l)

/-- C2 counterexample: a manifest whose `exports` is `null` is neither
`undefined` nor a plain object, yet `updatePackageJson` mutates it and
writes the file (`typeof null === 'object'` passes the gate), refuting
"mutation and the write occur only when `exports` is undefined or a plain
object". -/
theorem updatePackageJson_null_not_noop :
    (updatePackageJson false [("exports", JsVal.null)] []).2.isSome = true := by
  simp [updatePackageJson, manifestGate, exportsOf, jsLookup, typeofIsObject,
    jsIsArray, jsIsUndef]

/-- C2 amended: an existing `exports` that is a string or an array makes
`updatePackageJson` a complete no-op — manifest value unchanged, nothing
written; the mutation-and-write path is taken exactly when `exports` is
`undefined`, `null`, or a plain (non-array) object, `null` slipping through
the `typeof`-based gate; and whenever nothing is written the manifest is
returned unchanged. -/
theorem updatePackageJson_gate (win : Bool) (pkg : List (String × JsVal))
    (entries : List BuildEntry) :
    (∀ s, exportsOf pkg = .str s →
      updatePackageJson win pkg entries = (pkg, none)) ∧
    (∀ xs, exportsOf pkg = .arr xs →
      updatePackageJson win pkg entries = (pkg, none)) ∧
    ((updatePackageJson win pkg entries).2.isSome = true ↔
      (exportsOf pkg = .undef ∨ exportsOf pkg = .null ∨
        ∃ fields, exportsOf pkg = .obj fields)) ∧
    ((updatePackageJson win pkg entries).2 = none →
      updatePackageJson win pkg entries = (pkg, none)) := by
  refine ⟨fun s hs => ?_, fun xs hxs => ?_, ?_, ?_⟩
  · simp [updatePackageJson, manifestGate, typeofIsObject, jsIsArray,
      jsIsUndef, hs]
  · simp [updatePackageJson, manifestGate, typeofIsObject, jsIsArray,
      jsIsUndef, hxs]
  · cases hex : exportsOf pkg <;>
      simp [updatePackageJson, manifestGate, typeofIsObject, jsIsArray,
        jsIsUndef, hex]
  · cases hg : manifestGate (exportsOf pkg) <;>
      simp [updatePackageJson, hg]

/-- Witness for C2 (amended): a manifest whose `exports` is the string
`"./index.js"` is left completely unchanged and nothing is written. -/
theorem updatePackageJson_gate_witness :
    updatePackageJson false [("exports", JsVal.str "./index.js")] [] =
      ([("exports", JsVal.str "./index.js")], none) :=
  (updatePackageJson_gate false [("exports", JsVal.str "./index.js")] []).1
    "./index.js" rfl

/-- C10: a manifest whose `exports` is `null` passes the gate of
`updatePackageJson` (`typeof null === 'object'` and `null` is not an
array), so the manifest is mutated — `exports` becomes the synthesized
export map — and the file is written. -/
theorem updatePackageJson_null_passes_gate (win : Bool)
    (pkg : List (String × JsVal)) (entries : List BuildEntry)
    (h : exportsOf pkg = .null) :
    (updatePackageJson win pkg entries).2.isSome = true ∧
    jsLookup (updatePackageJson win pkg entries).1 "exports" =
      some (exportsValue win entries) := by
  have hg : manifestGate (exportsOf pkg) = true := by
    rw [h]
    rfl
  simp [updatePackageJson, hg, jsLookup_setField_self]

/-- Witness for C10 at a concrete manifest and entry list. -/
theorem updatePackageJson_null_passes_gate_witness :
    (updatePackageJson false [("name", JsVal.str "pkg"), ("exports", JsVal.null)]
      [⟨"./src/index.ts", "esm"⟩]).2.isSome = true ∧
    jsLookup (updatePackageJson false
        [("name", JsVal.str "pkg"), ("exports", JsVal.null)]
        [⟨"./src/index.ts", "esm"⟩]).1 "exports" =
      some (exportsValue false [⟨"./src/index.ts", "esm"⟩]) :=
  updatePackageJson_null_passes_gate false _ _ rfl

/-- C3: whenever the gate passes, the previous `exports` value is replaced
by the object literal `{ './package.json': './package.json', ...grouped }`,
built from the entry list alone — no key of the previous value survives —
and the write happens; since the grouped entries never use the key
`./package.json` themselves (their keys are `./dist/...` rewrites), the
result is literally the pinned `'./package.json': './package.json'` binding
first, followed by the grouped entries. -/
theorem updatePackageJson_replaces_exports (win : Bool)
    (pkg : List (String × JsVal)) (entries : List BuildEntry)
    (hg : manifestGate (exportsOf pkg) = true) :
    jsLookup (updatePackageJson win pkg entries).1 "exports" =
      some (exportsValue win entries) ∧
    (updatePackageJson win pkg entries).2.isSome = true ∧
    ("./package.json" ∉ (groupEntries win entries).map Prod.fst →
      exportsValue win entries =
        .obj (("./package.json", .str "./package.json") ::
          groupEntries win entries)) := by
  refine ⟨?_, ?_, fun hk => ?_⟩
  · simp [updatePackageJson, hg, jsLookup_setField_self]
  · simp [updatePackageJson, hg]
  · have hnd : ((("./package.json", JsVal.str "./package.json") ::
        groupEntries win entries).map Prod.fst).Nodup := by
      simp only [List.map_cons, List.nodup_cons]
      exact ⟨hk, groupEntries_keys_nodup win entries⟩
    have := spreadObj_eq_append [("./package.json", .str "./package.json")]
      (groupEntries win entries) (by simpa using hnd)
    simp [exportsValue, this]

/-- Witness for C3: with an existing hand-authored `exports` object and one
CommonJS entry, the old subpath is gone and `exports` is exactly the
pinned `./package.json` binding followed by the one generated group. -/
theorem updatePackageJson_replaces_exports_witness :
    jsLookup (updatePackageJson false
        [("exports", JsVal.obj [("./old", JsVal.str "./old.js")])]
        [⟨"./src/index.ts", "cjs"⟩]).1 "exports" =
      some (exportsValue false [⟨"./src/index.ts", "cjs"⟩]) ∧
    exportsValue false [⟨"./src/index.ts", "cjs"⟩] =
      .obj (("./package.json", .str "./package.json") ::
        groupEntries false [⟨"./src/index.ts", "cjs"⟩]) := by
  refine ⟨(updatePackageJson_replaces_exports false _ _ (by decide)).1, ?_⟩
  exact (updatePackageJson_replaces_exports false
    [("exports", JsVal.obj [("./old", JsVal.str "./old.js")])]
    [⟨"./src/index.ts", "cjs"⟩] (by decide)).2.2 (by decide)

/-- C6: the synthesizer is idempotent. Running `updatePackageJson` a second
time, with the identical entry list, on the manifest produced by the first
run (the canonically sorted manifest whose serialization the first write
contains) changes nothing: the in-memory manifest is returned as is and
the written text — sorted keys, pretty-printed, one trailing newline — is
byte-identical to the first write. A manifest parsed from JSON has no
duplicate keys, captured by the `Nodup` hypothesis. -/
theorem updatePackageJson_idempotent (win : Bool) (pkg : List (String × JsVal))
    (entries : List BuildEntry) (hnd : (pkg.map Prod.fst).Nodup)
    (hg : manifestGate (exportsOf pkg) = true) :
    updatePackageJson win (sortPkg (updatePackageJson win pkg entries).1)
        entries =
      (sortPkg (updatePackageJson win pkg entries).1,
        (updatePackageJson win pkg entries).2) := by
  have hrun : updatePackageJson win pkg entries =
      (setField pkg "exports" (exportsValue win entries),
        some (templateOpt (jsonStringify (.obj (sortPkg
          (setField pkg "exports" (exportsValue win entries))))) ++ "\n")) := by
    simp [updatePackageJson, hg]
  have hnd1 : ((setField pkg "exports" (exportsValue win entries)).map
      Prod.fst).Nodup :=
    setField_map_fst_nodup pkg "exports" (exportsValue win entries) hnd
  have hperm : (sortPkg (setField pkg "exports"
      (exportsValue win entries))).Perm
      (setField pkg "exports" (exportsValue win entries)) :=
    List.perm_insertionSort pkgFieldLE _
  have hnds : ((sortPkg (setField pkg "exports"
      (exportsValue win entries))).map Prod.fst).Nodup :=
    ((hperm.map Prod.fst).nodup_iff).2 hnd1
  have hlook : jsLookup (sortPkg (setField pkg "exports"
      (exportsValue win entries))) "exports" =
      some (exportsValue win entries) := by
    rw [jsLookup_eq_of_perm _ _ hperm hnds "exports"]
    exact jsLookup_setField_self pkg "exports" (exportsValue win entries)
  have hg2 : manifestGate (exportsOf (sortPkg (setField pkg "exports"
      (exportsValue win entries)))) = true := by
    unfold exportsOf
    rw [hlook]
    rfl
  have hset : setField (sortPkg (setField pkg "exports"
      (exportsValue win entries))) "exports" (exportsValue win entries) =
      sortPkg (setField pkg "exports" (exportsValue win entries)) :=
    setField_eq_self _ _ _ hlook
  rw [hrun]
  simp only [updatePackageJson, hg2, if_true, hset, sortPkg_idem]

/-- Witness for C6 at a concrete manifest and entry list. -/
theorem updatePackageJson_idempotent_witness :
    updatePackageJson false
        (sortPkg (updatePackageJson false
          [("version", JsVal.str "1.0.0"), ("exports", JsVal.obj [])]
          [⟨"./src/index.ts", "cjs"⟩]).1) [⟨"./src/index.ts", "cjs"⟩] =
      (sortPkg (updatePackageJson false
          [("version", JsVal.str "1.0.0"), ("exports", JsVal.obj [])]
          [⟨"./src/index.ts", "cjs"⟩]).1,
        (updatePackageJson false
          [("version", JsVal.str "1.0.0"), ("exports", JsVal.obj [])]
          [⟨"./src/index.ts", "cjs"⟩]).2) :=
  updatePackageJson_idempotent false
    [("version", JsVal.str "1.0.0"), ("exports", JsVal.obj [])]
    [⟨"./src/index.ts", "cjs"⟩] (by decide) (by decide)

/-- JavaScript `s.startsWith(pre)`. -/
def jsStartsWith (s pre : String) : Bool := pre.data.isPrefixOf s.data

/-- `hasFlag` (line 232): a flag is detected by *prefix* match of
`--name` against each raw argument. -/
def hasFlag (flags : List String) (name : String) : Bool :=
  (flags.find? (fun s => jsStartsWith s ("--" ++ name))).isSome

/-- Property access `v.k` as the script applies it to configuration
values: a field of an object, `undefined` otherwise. (Reading a property
of `null`/`undefined` would throw in JavaScript; the script only reaches
such an access behind a truthiness check, and no claim exercises that
corner.) -/
def getField (v : JsVal) (k : String) : JsVal :=
  match v with
  | .obj fields => (jsLookup fields k).getD (JsVal.undef)
  | _ => (JsVal.undef)

/-- JavaScript falsiness. -/
def jsFalsy : JsVal → Bool
  | .undef => true
  | .null => true
  | .bool b => !b
  | .num n => n == 0
  | .str s => s.isEmpty
  | _ => false

/-- `Object.values` for the shapes reachable here: an object's field
values in insertion order, an array's elements, a string's characters
(strings are indexable), nothing for other primitives. -/
def objectValues : JsVal → List JsVal
  | .obj fields => fields.map Prod.snd
  | .arr xs => xs
  | .str s => s.data.map (fun c => .str (String.singleton c))
  | _ => []

/-- The per-config entry expansion of `run` (lines 53–60): configs with a
falsy `entry` are skipped; an array entry is spread, any other entry goes
through `Object.values`; the files are crossed with `[].concat(format)`
(which wraps a scalar format, including `undefined` when the field is
absent). -/
def resolveEntries (configs : List JsVal) : List (JsVal × JsVal) :=
  configs.flatMap (fun c =>
    let entry := getField c "entry"
    if jsFalsy entry then []
    else
      (match entry with
        | .arr xs => xs
        | v => objectValues v).flatMap (fun file =>
        (concatOne (getField c "format")).map (fun fmt => (file, fmt))))

/-- An observable effect of one driver run, in issue order: the `dist`
wipe, a compiler invocation for one config (its options merged by
`mergeOptions`, modelled separately), a type-stub write
(`generateDTSMapperFile`), the manifest update, the fixed prebuild
runtime build (line 86) and the fixed common-manager build (line 120). -/
inductive RunEffect where
  | emptyDirDist
  | build (config : JsVal)
  | dts (file : JsVal)
  | updatePkg (entries : List (JsVal × JsVal))
  | prebuildRuntime
  | commonManagerBuild

/-- The three fixed runtime-globals entries appended to the manifest's
entry list (lines 67–82). -/
def fixedManifestEntries : List (JsVal × JsVal) :=
  [(.str "./src/prebuild/manager/runtime.ts", .str "iife"),
   (.str "./src/prebuild/manager/globals-runtime.ts", .str "iife"),
   (.str "./src/prebuild/preview/globals-runtime.ts", .str "iife")]

/-- The three fixed prebuild files handed to `generateDTSMapperFile` at
lines 114–118 — on every run, with no `optimized` guard. -/
def fixedDtsFiles : List JsVal :=
  [.str "./src/prebuild/manager/runtime.ts",
   .str "./src/prebuild/manager/globals-runtime.ts",
   .str "./src/prebuild/preview/globals-runtime.ts"]

/-- The driver `run` (lines 22–144) as an effect trace: the effects
performed in issue order, and the thrown error's message, if any. When no
usable config is found the run throws before pushing any task, so only the
optional `dist` wipe has happened. Stub generation for the resolved
entries is guarded by `!optimized` (lines 62–64); the three fixed prebuild
stubs of lines 114–118 are written unconditionally. -/
def runModel (cfg : JsVal) (flags : List String) :
    List RunEffect × Option String :=
  let reset := hasFlag flags "reset"
  let optimized := hasFlag flags "optimized"
  let pre := if reset then [RunEffect.emptyDirDist] else []
  let configs := getOptionsArray cfg
  if configs.length < 1 then (pre, some "No tsup-configs found")
  else
    let entries := resolveEntries configs
    (pre ++ configs.map RunEffect.build ++
      (if !optimized then entries.map (fun e => RunEffect.dts e.1) else []) ++
      [RunEffect.updatePkg (entries ++ fixedManifestEntries)] ++
      [RunEffect.prebuildRuntime] ++
      fixedDtsFiles.map RunEffect.dts ++
      [RunEffect.commonManagerBuild], none)

/-- The process exit status (lines 285–293): 1 when `run` rejects, 0
otherwise. -/
def runExitCode (r : List RunEffect × Option String) : Nat :=
  if r.2.isSome then 1 else 0

/-- The compiler invocations of a trace. -/
def buildEffects (l : List RunEffect) : List RunEffect :=
  l.filter (fun e =>
    match e with
    | .build _ => true
    | .prebuildRuntime => true
    | .commonManagerBuild => true
    | _ => false)

/-- The stub files written during a trace. -/
def dtsEffects : List RunEffect → List JsVal
  | [] => []
  | .dts f :: rest => f :: dtsEffects rest
  | _ :: rest => dtsEffects rest

theorem dtsEffects_append (l1 l2 : List RunEffect) :
    dtsEffects (l1 ++ l2) = dtsEffects l1 ++ dtsEffects l2 := by
  induction l1 with
  | nil => rfl
  | cons e rest ih => cases e <;> simp [dtsEffects, ih]

theorem dtsEffects_map_build (cs : List JsVal) :
    dtsEffects (cs.map RunEffect.build) = [] := by
  induction cs with
  | nil => rfl
  | cons c cs ih => simp [dtsEffects, ih]

theorem dtsEffects_map_dts (fs : List JsVal) :
    dtsEffects (fs.map RunEffect.dts) = fs := by
  induction fs with
  | nil => rfl
  | cons f fs ih => simp [dtsEffects, ih]

theorem dtsEffects_map_dts_fst (es : List (JsVal × JsVal)) :
    dtsEffects (es.map (fun e => RunEffect.dts e.1)) = es.map Prod.fst := by
  induction es with
  | nil => rfl
  | cons e es ih => simp [dtsEffects, ih]

/-- C8: when configuration normalization yields no descriptors, the run
throws `Error('No tsup-configs found')` before any build task is started
and before any stub or manifest write — the only effect that can precede
the throw is the optional `dist` wipe — and the process exits with
status 1. -/
theorem run_fails_on_empty_configs (cfg : JsVal) (flags : List String)
    (h : getOptionsArray cfg = []) :
    (runModel cfg flags).2 = some "No tsup-configs found" ∧
    (∀ e ∈ (runModel cfg flags).1, e = RunEffect.emptyDirDist) ∧
    buildEffects (runModel cfg flags).1 = [] ∧
    dtsEffects (runModel cfg flags).1 = [] ∧
    runExitCode (runModel cfg flags) = 1 := by
  by_cases hr : hasFlag flags "reset" <;>
    simp [runModel, h, hr, runExitCode, buildEffects, dtsEffects]

/-- Witness for C8: a string config export normalizes to no descriptors;
the run (with `--reset`) fails with the configuration error and exit
code 1, having started nothing. -/
theorem run_fails_on_empty_configs_witness :
    (runModel (.str "nope") ["--reset"]).2 = some "No tsup-configs found" ∧
    (∀ e ∈ (runModel (.str "nope") ["--reset"]).1,
      e = RunEffect.emptyDirDist) ∧
    buildEffects (runModel (.str "nope") ["--reset"]).1 = [] ∧
    dtsEffects (runModel (.str "nope") ["--reset"]).1 = [] ∧
    runExitCode (runModel (.str "nope") ["--reset"]) = 1 :=
  run_fails_on_empty_configs (.str "nope") ["--reset"] rfl

/-- C9 counterexample: with `--optimized`, stub generation is *not*
skipped entirely: a run over one CommonJS config still writes the three
fixed prebuild runtime-globals stubs of lines 114–118. -/
theorem run_optimized_still_writes_prebuild_stubs :
    dtsEffects (runModel
        (.obj [("entry", .arr [.str "./src/index.ts"]),
               ("format", .str "cjs")])
        ["--optimized"]).1 = fixedDtsFiles ∧
    dtsEffects (runModel
        (.obj [("entry", .arr [.str "./src/index.ts"]),
               ("format", .str "cjs")])
        ["--optimized"]).1 ≠ [] := by
  constructor
  · rfl
  · intro hcontra
    rw [show dtsEffects (runModel
        (.obj [("entry", .arr [.str "./src/index.ts"]),
               ("format", .str "cjs")])
        ["--optimized"]).1 = fixedDtsFiles from rfl] at hcontra
    simp [fixedDtsFiles] at hcontra

/-- C9 amended: in optimized mode no stub is written for any resolved
config entry (the `!optimized` guard drops them all), but the three fixed
prebuild runtime-globals stubs are still written: on a successful
optimized run the stub files written are exactly those three. -/
theorem run_optimized_dts_only_prebuild (cfg : JsVal) (flags : List String)
    (hopt : hasFlag flags "optimized" = true)
    (hok : (runModel cfg flags).2 = none) :
    dtsEffects (runModel cfg flags).1 = fixedDtsFiles := by
  by_cases hlen : (getOptionsArray cfg).length < 1
  · simp [runModel, hlen] at hok
  · by_cases hr : hasFlag flags "reset" <;>
      simp [runModel, hlen, hopt, hr, dtsEffects_append, dtsEffects,
        dtsEffects_map_build, dtsEffects_map_dts, fixedDtsFiles]

/-- Witness for C9 (amended): a successful optimized run over an
object-form entry writes exactly the three fixed prebuild stubs. -/
theorem run_optimized_dts_only_prebuild_witness :
    dtsEffects (runModel
        (.obj [("entry", .obj [("main", .str "./src/index.ts")]),
               ("format", .arr [.str "esm"])])
        ["--optimized", "--watch"]).1 = fixedDtsFiles :=
  run_optimized_dts_only_prebuild
    (.obj [("entry", .obj [("main", .str "./src/index.ts")]),
           ("format", .arr [.str "esm"])])
    ["--optimized", "--watch"] rfl rfl
